import Mathlib

/-!
Shallow embedding of the `bevy_voxels` generation pipeline, translated from
the Rust sources `src/chunks.rs`, `src/chunks/subdivision.rs` and
`src/chunks/render.rs`.

Modelling conventions:

* Machine floats (`f32`) are embedded as exact rationals (`ℚ`).  Every
  position and size the pipeline feeds into the functions below is a dyadic
  rational with small exponent (chunk coordinates times the chunk size 4,
  repeatedly halved down to 1/8), and on those values every `f32` operation
  performed by the source (addition, subtraction, halving, comparison) is
  exact, so the rational embedding agrees with the float semantics.
  The source's `f32::EPSILON` constant is the exact rational 2⁻²³.
* The world-noise generator (`src/chunks/world_noise.rs`) is kept abstract:
  a `DataGenerator` is a bundle of the three pure functions the pipeline
  calls (`get_data_2d`, `get_data_3d`, `get_data_color`), parametrised over
  the type of the 2-d sample.  All claims treated here either quantify over
  every occupancy field or force a degenerate one, so no property below
  depends on the numeric content of the real noise functions.
* The ray-cast culling step (`src/chunks/raycast.rs`) is abstracted as a
  `FaceFilter` parameter: its output order depends on Rust `HashSet`
  iteration order and its hit tests on floating point square roots, so it is
  genuinely nondeterministic, and every property below holds for an
  arbitrary filter (in particular for the source's).
* Rust `Vec` becomes `List`; the `Vec<Vec<Vec<bool>>>` visited grid becomes
  a function `ℤ × ℤ × ℤ → Bool` on the normalised indices (all reads and
  writes in the source are guarded to the index range `[0,6]³`, where the
  two representations agree).
* A Rust panic (the `cubes[0]` index into a possibly-empty vector in
  `generate_cube_faces`) is modelled by `Option`: `none` is the panic.
-/

/-- Triple of rationals standing for the source's `Vec3` / `(f32, f32, f32)`. -/
abbrev V3 : Type := ℚ × ℚ × ℚ

/-- Result record of `world_noise::DataGenerator::get_data_color`. -/
structure DataColor where
  color : V3
  pos_jittered : V3
deriving DecidableEq, Repr

/-- Abstract interface of `world_noise::DataGenerator`: the three pure
functions the subdivision pipeline calls, parametrised over the type `α` of
the per-column 2-d sample (`Data2D` in the source). -/
structure DataGenerator (α : Type) where
  get_data_2d : ℚ → ℚ → α
  get_data_3d : α → ℚ → ℚ → ℚ → Bool
  get_data_color : α → ℚ → ℚ → ℚ → DataColor

/-- The source's `Cube` struct (`src/chunks/subdivision.rs`). -/
structure Cube where
  pos : V3
  size : ℚ
  color : V3
deriving DecidableEq, Repr

/-- Constant `SMALLEST_CUBE_SIZE: f32 = 0.25` from `src/chunks/subdivision.rs`. -/
def SMALLEST_CUBE_SIZE : ℚ := 1/4

/-- Constant `f32::EPSILON` = 2⁻²³, used by the size matching in
`subdivide_cube`. -/
def f32_epsilon : ℚ := 1/8388608

/-- Translation of `render_cube` (`src/chunks/subdivision.rs` lines 112-119):
builds a `Cube` from the colour sample, with the deliberate 1.175× oversize. -/
def render_cube (g : DataGenerator α) (data2d : α) (pos : V3) (size : ℚ) : Cube :=
  let data_color := g.get_data_color data2d pos.1 pos.2.2 pos.2.1
  { pos := data_color.pos_jittered
    size := size * (47/40)
    color := data_color.color }

/-- Translation of the corner-sampling loop of `subdivide_cube`
(`src/chunks/subdivision.rs` lines 47-66): count how many of the 8 corner
samples of the cube report air (`get_data_3d` true), computing the 2-d
sample once per (x, z) column. -/
def n_air_cubes (g : DataGenerator α) (cube_pos : V3) (cube_size : ℚ) : ℕ :=
  let (px, py, pz) := cube_pos
  let half_cube_size := cube_size / 2
  (([px - half_cube_size, px + half_cube_size]).flatMap fun x =>
    ([pz - half_cube_size, pz + half_cube_size]).flatMap fun z =>
      let data2d := g.get_data_2d x z
      ([py - half_cube_size, py + half_cube_size]).map fun y =>
        g.get_data_3d data2d x z y).count true

/-- Translation of the `max_air_cubes` size match of `subdivide_cube`
(`src/chunks/subdivision.rs` lines 49-54).  The source compares `f32` sizes
against 0.25 / 0.5 / 1.0 within `f32::EPSILON`; here the same window is
taken over ℚ. -/
def max_air_cubes (cube_size : ℚ) : ℤ :=
  if |cube_size - 1/4| < f32_epsilon then 4
  else if |cube_size - 1/2| < f32_epsilon then 2
  else if |cube_size - 1| < f32_epsilon then 1
  else 0

/-- Translation of the 8-child split of `subdivide_cube`
(`src/chunks/subdivision.rs` lines 78-107), with the recursive call
abstracted as the parameter `recurse`.  Child `i` is offset by ±quarter-size
on each axis (bit 0 → x, bit 2 → y, bit 1 → z, as in the source); a child
below `SMALLEST_CUBE_SIZE` is not recursed into but sampled directly at its
centre, emitting a cube only when solid. -/
def subdivide_children (g : DataGenerator α) (recurse : V3 → ℚ → List Cube)
    (cube_pos : V3) (cube_size : ℚ) : List Cube :=
  let (px, py, pz) := cube_pos
  let half_cube_size := cube_size / 2
  let quarter_cube_size := cube_size / 4
  (List.range 8).flatMap fun i =>
    let corner_pos : V3 :=
      (px + (((i &&& 1 : ℕ) : ℚ) * 2 - 1) * quarter_cube_size,
       py + ((((i >>> 2) &&& 1 : ℕ) : ℚ) * 2 - 1) * quarter_cube_size,
       pz + ((((i >>> 1) &&& 1 : ℕ) : ℚ) * 2 - 1) * quarter_cube_size)
    let (c_pos_x, c_pos_y, c_pos_z) := corner_pos
    if half_cube_size < SMALLEST_CUBE_SIZE then
      let data2d := g.get_data_2d c_pos_x c_pos_z
      let is_inside := g.get_data_3d data2d c_pos_x c_pos_z c_pos_y
      if is_inside then [] else [render_cube g data2d corner_pos half_cube_size]
    else recurse corner_pos half_cube_size

/-- Fuel-indexed translation of `subdivide_cube`
(`src/chunks/subdivision.rs` lines 38-110).  The Rust recursion terminates
because the size halves at every call and recursion stops below
`SMALLEST_CUBE_SIZE`; the fuel makes that termination explicit, and
`subdivide_fuel_stable` below proves the fuel is irrelevant once it covers
the recursion depth. -/
def subdivide_cube_fuel (g : DataGenerator α) :
    ℕ → V3 → ℚ → List Cube
  | 0, _, _ => []
  | fuel + 1, cube_pos, cube_size =>
    let n_air := n_air_cubes g cube_pos cube_size
    if n_air = 8 then []
    else if (n_air : ℤ) ≤ max_air_cubes cube_size then
      let data2d := g.get_data_2d cube_pos.1 cube_pos.2.2
      [render_cube g data2d cube_pos cube_size]
    else
      subdivide_children g (subdivide_cube_fuel g fuel) cube_pos cube_size

/-- Structurally recursive ceiling base-2 logarithm (the fuel argument makes
the recursion kernel-computable); `ceilLog2Rec_eq_clog` below shows it agrees
with Mathlib's `Nat.clog 2` once the fuel dominates the argument. -/
def ceilLog2Rec : ℕ → ℕ → ℕ
  | 0, _ => 0
  | fuel + 1, n => if n ≤ 1 then 0 else ceilLog2Rec fuel ((n + 1) / 2) + 1

/-- Ceiling base-2 logarithm: the least `k` with `n ≤ 2 ^ k`. -/
def ceilLog2 (n : ℕ) : ℕ := ceilLog2Rec n n

/-- Depth bound for the subdivision recursion at input size `s`:
`ceilLog2 ⌈4s⌉` equals `⌈log₂(s / SMALLEST_CUBE_SIZE)⌉` for every
rational `s ≥ 1/4` (see `depthBound_eq_clog`). -/
def depthBound (s : ℚ) : ℕ := ceilLog2 (⌈4 * s⌉).toNat

/-- Canonical `subdivide_cube`: the fuel-indexed body run with enough fuel
for its whole recursion tree. -/
def subdivide_cube (g : DataGenerator α) (cube_pos : V3) (cube_size : ℚ) :
    List Cube :=
  subdivide_cube_fuel g (depthBound cube_size + 1) cube_pos cube_size

/-- Table `FACES` from `src/chunks/render.rs`: six corner-index triples per
face direction (two triangles each). -/
def FACES : List (List ℕ) :=
  [[2, 1, 0, 3, 1, 2],
   [4, 5, 6, 6, 5, 7],
   [2, 0, 4, 4, 6, 2],
   [1, 3, 5, 3, 7, 5],
   [0, 1, 5, 5, 4, 0],
   [3, 2, 6, 6, 7, 3]]

/-- Table `FACES_VERTICES` from `src/chunks/render.rs`: the four corner
indices of each face direction. -/
def FACES_VERTICES : List (List ℕ) :=
  [[0, 1, 2, 3],
   [4, 5, 6, 7],
   [0, 2, 4, 6],
   [1, 3, 5, 7],
   [0, 1, 4, 5],
   [2, 3, 6, 7]]

/-- Table `FACE_NORMALS` from `src/chunks/render.rs`. -/
def FACE_NORMALS : List V3 :=
  [(0, 0, 1), (0, 0, -1), (0, 1, 0), (0, -1, 0), (1, 0, 0), (-1, 0, 0)]

/-- The source's `Face` struct: four slightly inset probe corners, the two
triangles, and the owning cube's colour. -/
structure Face where
  vertices : List V3
  tris : List (V3 × V3 × V3)
  color : ℚ × ℚ × ℚ × ℚ
deriving DecidableEq, Repr

/-- The source's `CubeFace` struct: all faces of one axis direction. -/
structure CubeFace where
  faces : List Face
  normal : V3
deriving DecidableEq, Repr

/-- The source's `MeshData` struct: flat vertex-attribute buffers plus the
index list (Rust `u32` indices become `ℕ`; the counts involved are far below
2³²). -/
structure MeshData where
  positions : List V3
  normals : List V3
  colors : List (ℚ × ℚ × ℚ × ℚ)
  indices : List ℕ
deriving DecidableEq, Repr

/-- Componentwise minimum, the source's `Vec3::min`. -/
def vmin (a b : V3) : V3 := (min a.1 b.1, min a.2.1 b.2.1, min a.2.2 b.2.2)

/-- Componentwise maximum, the source's `Vec3::max`. -/
def vmax (a b : V3) : V3 := (max a.1 b.1, max a.2.1 b.2.1, max a.2.2 b.2.2)

/-- Body of the per-cube loop of `generate_cube_faces`
(`src/chunks/render.rs` lines 89-152): compute the cube's eight corners in
chunk-local space, update the running bounding box, and append one `Face`
(two triangles plus four probe corners inset by 1%) to each of the six
direction groups. -/
def push_cube_faces (chunk_pos : V3) (st : List CubeFace × V3 × V3)
    (cube : Cube) : List CubeFace × V3 × V3 :=
  let (chunk_x, chunk_z, chunk_y) := chunk_pos
  let (cube_faces, min_pos, max_pos) := st
  let half_size := cube.size / 2
  let (corner_x, corner_z, corner_y) := cube.pos
  let real_x := corner_x - chunk_x
  let real_z := corner_z - chunk_z
  let real_y := corner_y - chunk_y
  let real_x_minus := real_x - half_size
  let real_x_plus := real_x + half_size
  let real_z_minus := real_z - half_size
  let real_z_plus := real_z + half_size
  let real_y_minus := real_y - half_size
  let real_y_plus := real_y + half_size
  let corners : List V3 :=
    [(real_x_plus, real_y_plus, real_z_plus),
     (real_x_plus, real_y_minus, real_z_plus),
     (real_x_minus, real_y_plus, real_z_plus),
     (real_x_minus, real_y_minus, real_z_plus),
     (real_x_plus, real_y_plus, real_z_minus),
     (real_x_plus, real_y_minus, real_z_minus),
     (real_x_minus, real_y_plus, real_z_minus),
     (real_x_minus, real_y_minus, real_z_minus)]
  let new_min := vmin min_pos (real_x_minus, real_y_minus, real_z_minus)
  let new_max := vmax max_pos (real_x_plus, real_y_plus, real_z_plus)
  let color : ℚ × ℚ × ℚ × ℚ := (cube.color.1, cube.color.2.1, cube.color.2.2, 1)
  let corner : ℕ → V3 := fun i => corners.getD i (0, 0, 0)
  let vadd : V3 → V3 → V3 := fun a b => (a.1 + b.1, a.2.1 + b.2.1, a.2.2 + b.2.2)
  let vsub : V3 → V3 → V3 := fun a b => (a.1 - b.1, a.2.1 - b.2.1, a.2.2 - b.2.2)
  let vscale : ℚ → V3 → V3 := fun c a => (c * a.1, c * a.2.1, c * a.2.2)
  let mk_face : ℕ → Face := fun face_index =>
    let current_face := FACES.getD face_index []
    let verts := FACES_VERTICES.getD face_index []
    let shift_amount : ℚ := 1/100
    let center := vscale (1/4)
      (vadd (vadd (corner (verts.getD 0 0)) (corner (verts.getD 1 0)))
            (vadd (corner (verts.getD 2 0)) (corner (verts.getD 3 0))))
    let shift : ℕ → V3 := fun k =>
      vadd (corner (verts.getD k 0))
        (vscale shift_amount (vsub center (corner (verts.getD k 0))))
    { vertices := [shift 0, shift 1, shift 2, shift 3]
      tris :=
        [(corner (current_face.getD 0 0), corner (current_face.getD 1 0),
          corner (current_face.getD 2 0)),
         (corner (current_face.getD 3 0), corner (current_face.getD 4 0),
          corner (current_face.getD 5 0))]
      color := color }
  let new_faces := (List.range 6).map mk_face
  (List.zipWith (fun cf f => { cf with faces := cf.faces ++ [f] }) cube_faces new_faces,
   new_min, new_max)

/-- Translation of `generate_cube_faces` (`src/chunks/render.rs` lines
69-155).  The source unconditionally reads `cubes[0]` to seed the bounding
box; on an empty list that indexing panics, modelled here by `none`. -/
def generate_cube_faces (cubes : List Cube) (chunk_pos : V3) :
    Option (List CubeFace × V3 × V3) :=
  match cubes with
  | [] => none
  | c0 :: _ =>
    let init_faces : List CubeFace := FACE_NORMALS.map fun n => ⟨[], n⟩
    let p0 : V3 := (c0.pos.1, c0.pos.2.1, c0.pos.2.2)
    some (cubes.foldl (push_cube_faces chunk_pos) (init_faces, p0, p0))

/-- Body of the per-face loop of `generate_mesh_data`
(`src/chunks/render.rs` lines 168-183): flatten the face's two triangles to
six vertices and append their positions, the group normal, the face colour,
and the running indices `base, base+1, …`. -/
def push_face (normal : V3) (md : MeshData) (face : Face) : MeshData :=
  let base := md.indices.length
  let verts := face.tris.flatMap fun t => [t.1, t.2.1, t.2.2]
  { positions := md.positions ++ verts
    normals := md.normals ++ verts.map fun _ => normal
    colors := md.colors ++ verts.map fun _ => face.color
    indices := md.indices ++ (List.range verts.length).map (base + ·) }

/-- Translation of `generate_mesh_data` (`src/chunks/render.rs` lines
160-192). -/
def generate_mesh_data (cube_faces : List CubeFace) : MeshData :=
  cube_faces.foldl (fun md cf => cf.faces.foldl (push_face cf.normal) md)
    ⟨[], [], [], []⟩

/-- Type of the face-culling step: `raycast::perform_raycasts` consumes the
six direction groups plus the bounding box and returns the surviving faces.
It is kept abstract (see the module comment); every claim below holds for
an arbitrary filter. -/
abbrev FaceFilter : Type := List CubeFace → V3 → V3 → List CubeFace

/-- Translation of `cubes_mesh` (`src/chunks/render.rs` lines 52-66):
build the faces, cull them, flatten to buffers, and return the mesh data
with the triangle count `indices.len() / 3`. -/
def cubes_mesh (filter : FaceFilter) (cubes : List Cube) (chunk_pos : V3) :
    Option (MeshData × ℕ) :=
  (generate_cube_faces cubes chunk_pos).map fun st =>
    let cube_faces := filter st.1 st.2.1 st.2.2
    let mesh_data := generate_mesh_data cube_faces
    (mesh_data, mesh_data.indices.length / 3)

/-- The source's `Chunk` struct (`src/chunks/subdivision.rs`). -/
structure Chunk where
  mesh : Option MeshData
  chunk_pos : V3
  n_cubes : ℕ
  n_triangles : ℕ
deriving DecidableEq, Repr

/-- Translation of `chunk_render` (`src/chunks/subdivision.rs` lines 22-36):
subdivide the chunk; when no cube was produced the mesh is `None` with zero
triangles, otherwise the mesher runs.  The outer `Option` propagates the
(unreachable) mesher panic. -/
def chunk_render (filter : FaceFilter) (g : DataGenerator α)
    (chunk_pos : V3) (chunk_size : ℚ) : Option Chunk :=
  let cubes := subdivide_cube g chunk_pos chunk_size
  if cubes.isEmpty then
    some { mesh := none, chunk_pos := chunk_pos, n_cubes := cubes.length,
           n_triangles := 0 }
  else
    (cubes_mesh filter cubes chunk_pos).map fun mt =>
      { mesh := some mt.1, chunk_pos := chunk_pos, n_cubes := cubes.length,
        n_triangles := mt.2 }

/-- Constant `CHUNK_SIZE: usize = 4` from `src/chunks.rs`. -/
def CHUNK_SIZE : ℤ := 4

/-- Constant `RENDER_DISTANCE: usize = 3` from `src/chunks.rs`. -/
def RENDER_DISTANCE : ℤ := 3

/-- Chunk-grid coordinates, the source's `(i32, i32, i32)`. -/
abbrev Coord : Type := ℤ × ℤ × ℤ

/-- The visited grid.  The source stores a `Vec<Vec<Vec<bool>>>` of side
`RENDER_DISTANCE * 2 + 1` indexed by the normalised coordinates; every
access is guarded to the range `[0, 6]³`, so the grid is embedded as its
extension, a function on normalised coordinates. -/
abbrev Visited : Type := Coord → Bool

/-- The six axis directions of `explore_chunk` (`src/chunks.rs` lines
91-98), in source order. -/
def directions : List Coord :=
  [(-1, 0, 0), (1, 0, 0), (0, -1, 0), (0, 1, 0), (0, 0, -1), (0, 0, 1)]

/-- The source's `ExploreResult` struct (`src/chunks.rs` lines 9-13). -/
structure ExploreResult where
  chunks : List Chunk
  new_visited : Visited
  new_queue : List Coord

/-- World-space position handed to `chunk_render` for a neighbour
coordinate (`src/chunks.rs` lines 147-155): the tuple
`(n.0 * CHUNK_SIZE, n.2 * CHUNK_SIZE, n.1 * CHUNK_SIZE)` — note the
swizzle of the second and third components, as in the source. -/
def chunk_world_pos (n : Coord) : V3 :=
  ((CHUNK_SIZE * n.1 : ℤ), ((CHUNK_SIZE * n.2.2 : ℤ) : ℚ), ((CHUNK_SIZE * n.2.1 : ℤ) : ℚ))

/-- Normalised index of a chunk coordinate into the visited grid
(`src/chunks.rs` lines 116-120). -/
def normalised (n : Coord) : Coord :=
  (n.1 + RENDER_DISTANCE, n.2.1 + RENDER_DISTANCE, n.2.2 + RENDER_DISTANCE)

/-- Body of the per-direction loop of `explore_chunk` (`src/chunks.rs`
lines 109-166).  The neighbour is skipped when out of the grid bounds,
already visited, or farther than `RENDER_DISTANCE` from the origin (the
source compares `sqrt(dx²+dy²+dz²) > 3.0` on `f32`; for the integer
coordinates reaching this point — all within `[-3, 3]³` after the bounds
check — that comparison is exactly `dx²+dy²+dz² > 9`).  A surviving
neighbour is marked visited and generated; the generated chunk is recorded
when it has at least one cube, and the neighbour is queued for further
exploration unless the chunk is blocking (`n_cubes == 1`). -/
def explore_dir (visited : Visited) (g : DataGenerator α) (filter : FaceFilter)
    (chunk : Coord) (st : ExploreResult) (direction : Coord) :
    Option ExploreResult :=
  let neighbor : Coord :=
    (chunk.1 + direction.1, chunk.2.1 + direction.2.1, chunk.2.2 + direction.2.2)
  let nn := normalised neighbor
  if nn.1 < 0 ∨ nn.2.1 < 0 ∨ nn.2.2 < 0 ∨ nn.1 > RENDER_DISTANCE * 2 ∨
      nn.2.1 > RENDER_DISTANCE * 2 ∨ nn.2.2 > RENDER_DISTANCE * 2 then
    some st
  else if visited nn || st.new_visited nn then
    some st
  else if neighbor.1 ^ 2 + neighbor.2.1 ^ 2 + neighbor.2.2 ^ 2 >
      RENDER_DISTANCE ^ 2 then
    some st
  else
    let new_visited : Visited := fun p => if p = nn then true else st.new_visited p
    match chunk_render filter g (chunk_world_pos neighbor) (CHUNK_SIZE : ℚ) with
    | none => none
    | some c =>
      let blocking := decide (c.n_cubes = 1)
      let new_chunks := if 0 < c.n_cubes then st.chunks ++ [c] else st.chunks
      let new_queue :=
        if blocking then st.new_queue else st.new_queue ++ [neighbor]
      some { chunks := new_chunks, new_visited := new_visited,
             new_queue := new_queue }

/-- Translation of `explore_chunk` (`src/chunks.rs` lines 86-173): fold the
per-direction body over the six axis directions, starting from empty
accumulators. -/
def explore_chunk (visited : Visited) (g : DataGenerator α)
    (filter : FaceFilter) (chunk : Coord) : Option ExploreResult :=
  directions.foldlM (explore_dir visited g filter chunk)
    { chunks := [], new_visited := fun _ => false, new_queue := [] }

/-- State of the `chunk_search` exploration loop (`src/chunks.rs` lines
29-50): the accumulated output chunks, the shared visited grid, and the
frontier queue. -/
structure SearchState where
  chunks : List Chunk
  visited : Visited
  queue : List Coord

/-- The explorer's state before the loop of `chunk_search` starts
(`src/chunks.rs` lines 29-38): the visited grid is all-false and the origin
chunk is queued. -/
def initState : SearchState :=
  { chunks := [], visited := fun _ => false, queue := [(0, 0, 0)] }

/-- Merge of a step's `new_visited` grid into the shared one
(`src/chunks.rs` lines 43-49): pointwise `new || old`. -/
def merge_visited (visited new_visited : Visited) : Visited :=
  fun p => new_visited p || visited p

/-- Fuel-indexed translation of the `while let Some(chunk) =
queue.pop_front()` loop of `chunk_search` (`src/chunks.rs` lines 39-50).
`none` means the fuel ran out before the frontier emptied (or a panic
propagated); `some` is the state after normal termination. -/
def search_loop (g : DataGenerator α) (filter : FaceFilter) :
    ℕ → SearchState → Option SearchState
  | 0, st => match st.queue with
    | [] => some st
    | _ :: _ => none
  | fuel + 1, st => match st.queue with
    | [] => some st
    | chunk :: rest =>
      match explore_chunk st.visited g filter chunk with
      | none => none
      | some r =>
        search_loop g filter fuel
          { chunks := st.chunks ++ r.chunks
            visited := merge_visited st.visited r.new_visited
            queue := rest ++ r.new_queue }

/-- Translation of `chunk_search` (`src/chunks.rs` lines 19-79) up to the
end of the exploration loop (the spawning of meshes and the diagnostics
printout consume the state without changing it). -/
def chunk_search (g : DataGenerator α) (filter : FaceFilter) (fuel : ℕ) :
    Option SearchState :=
  search_loop g filter fuel initState

/-- Identity face filter: a trivially admissible instance of the abstract
culling step, used to instantiate the claims on concrete inputs. -/
def idFilter : FaceFilter := fun cube_faces _ _ => cube_faces

/-- Degenerate field forced to report air everywhere (`get_data_3d` ≡ true). -/
def all_air_gen : DataGenerator Unit where
  get_data_2d := fun _ _ => ()
  get_data_3d := fun _ _ _ _ => true
  get_data_color := fun _ _ _ _ => { color := (0, 0, 0), pos_jittered := (0, 0, 0) }

/-- Degenerate field forced to report solid everywhere (`get_data_3d` ≡
false), the field of the spec's origin-only scenario. -/
def all_solid_gen : DataGenerator Unit where
  get_data_2d := fun _ _ => ()
  get_data_3d := fun _ _ _ _ => false
  get_data_color := fun _ _ _ _ => { color := (0, 0, 0), pos_jittered := (0, 0, 0) }

/-- Occupancy field that is solid exactly on the eight sample points
`x ∈ {4, 6}, z ∈ {0, 2}, y ∈ {0, 2}` (the corners of one half-size child of
the chunk at world position (4, 0, 0)) and air everywhere else.  Used to
separate the two candidate blocking predicates: the chunk at (4, 0, 0) has
7 air corners at the top level yet subdivides to exactly one cube. -/
def cex_gen : DataGenerator Unit where
  get_data_2d := fun _ _ => ()
  get_data_3d := fun _ x z y =>
    !((x == 4 || x == 6) && (z == 0 || z == 2) && (y == 0 || y == 2))
  get_data_color := fun _ _ _ _ => { color := (0, 0, 0), pos_jittered := (0, 0, 0) }

/-- Consistency of a mesh-data buffer set: the index list is exactly
`0, 1, …, len-1` and all three attribute buffers have the same length as the
index buffer. -/
def MeshOk (md : MeshData) : Prop :=
  md.indices = List.range md.indices.length ∧
  md.positions.length = md.indices.length ∧
  md.normals.length = md.indices.length ∧
  md.colors.length = md.indices.length

/-- Invariant of the per-direction fold inside `explore_chunk`, relative to
the incoming shared `visited` grid: every queued neighbour is marked in the
step's own grid; every recorded chunk sits at the world position of a
neighbour that was freshly marked (not previously visited) and is queued
exactly when its cube count differs from 1; and the recorded chunk
positions are pairwise distinct. -/
def ExploreInv (visited : Visited) (r : ExploreResult) : Prop :=
  (∀ q ∈ r.new_queue, r.new_visited (normalised q) = true) ∧
  (∀ c ∈ r.chunks, ∃ n : Coord, c.chunk_pos = chunk_world_pos n ∧
      r.new_visited (normalised n) = true ∧ visited (normalised n) = false ∧
      (n ∈ r.new_queue ↔ c.n_cubes ≠ 1)) ∧
  (r.chunks.map Chunk.chunk_pos).Pairwise (· ≠ ·)

/-- Invariant of the `chunk_search` loop: every output chunk sits at the
world position of a coordinate marked in the shared visited grid, and the
output chunk positions are pairwise distinct. -/
def SearchInv (st : SearchState) : Prop :=
  (∀ c ∈ st.chunks, ∃ n : Coord, c.chunk_pos = chunk_world_pos n ∧
      st.visited (normalised n) = true) ∧
  (st.chunks.map Chunk.chunk_pos).Pairwise (· ≠ ·)

/-- The fuel-indexed ceiling logarithm agrees with Mathlib's `Nat.clog 2`
once the fuel dominates the argument. -/
theorem ceilLog2Rec_eq_clog :
    ∀ (fuel n : ℕ), n ≤ fuel → ceilLog2Rec fuel n = Nat.clog 2 n := by
  intro fuel
  induction fuel with
  | zero =>
    intro n hn
    interval_cases n
    simp [ceilLog2Rec]
  | succ f ih =>
    intro n hn
    by_cases h1 : n ≤ 1
    · simp [ceilLog2Rec, h1, Nat.clog_of_right_le_one h1]
    · have h2 : 2 ≤ n := by omega
      have hrec : (n + 1) / 2 ≤ f := by omega
      have hstep := Nat.clog_of_two_le (b := 2) (n := n) one_lt_two h2
      simp only [ceilLog2Rec, if_neg h1, ih _ hrec]
      have harg : (n + 2 - 1) / 2 = (n + 1) / 2 := by omega
      rw [hstep, harg]

/-- Unfuelled form of `ceilLog2Rec_eq_clog`. -/
theorem ceilLog2_eq_clog (n : ℕ) : ceilLog2 n = Nat.clog 2 n :=
  ceilLog2Rec_eq_clog n n le_rfl

/-- The depth bound is the ceiling base-2 logarithm of `s / (1/4)`. -/
theorem depthBound_eq_clog (s : ℚ) : depthBound s = Nat.clog 2 (⌈4 * s⌉).toNat := by
  unfold depthBound
  exact ceilLog2_eq_clog _

/-- Key decrease: halving a size of at least 1/2 strictly lowers its depth
bound, so the subdivision fuel covers each recursive call. -/
theorem depthBound_half_lt (s : ℚ) (hs : 1/2 ≤ s) :
    depthBound (s / 2) < depthBound s := by
  rw [depthBound_eq_clog, depthBound_eq_clog]
  have h42 : (4 : ℚ) * (s / 2) = 2 * s := by ring
  rw [h42]
  have hceil : (2 : ℤ) ≤ ⌈(4 : ℚ) * s⌉ := by
    have h2q : ((2 : ℤ) : ℚ) ≤ 4 * s := by push_cast; linarith
    calc (2 : ℤ) = ⌈((2 : ℤ) : ℚ)⌉ := by rw [Int.ceil_intCast]
      _ ≤ ⌈(4 : ℚ) * s⌉ := Int.ceil_le_ceil h2q
  have hn2 : 2 ≤ (⌈(4 : ℚ) * s⌉).toNat := by
    have := Int.toNat_le_toNat hceil
    simpa using this
  have hpos : 0 < Nat.clog 2 (⌈(4 : ℚ) * s⌉).toNat :=
    Nat.clog_pos one_lt_two hn2
  have hle : (⌈(4 : ℚ) * s⌉).toNat ≤ 2 ^ Nat.clog 2 (⌈(4 : ℚ) * s⌉).toNat :=
    Nat.le_pow_clog one_lt_two _
  have hcast : ((⌈(4 : ℚ) * s⌉).toNat : ℚ) = ((⌈(4 : ℚ) * s⌉ : ℤ) : ℚ) := by
    have h0 : (0 : ℤ) ≤ ⌈(4 : ℚ) * s⌉ := by omega
    exact_mod_cast congrArg (fun z : ℤ => (z : ℚ)) (Int.toNat_of_nonneg h0)
  have h2s : (⌈(2 : ℚ) * s⌉ : ℤ) ≤ (2 : ℤ) ^ (Nat.clog 2 (⌈(4 : ℚ) * s⌉).toNat - 1) := by
    rw [Int.ceil_le]
    have hq : ((⌈(4 : ℚ) * s⌉).toNat : ℚ) ≤ (2 : ℚ) ^ Nat.clog 2 (⌈(4 : ℚ) * s⌉).toNat := by
      exact_mod_cast hle
    have h4 : (4 : ℚ) * s ≤ ((⌈(4 : ℚ) * s⌉).toNat : ℚ) := by
      rw [hcast]
      exact Int.le_ceil _
    have hksucc : Nat.clog 2 (⌈(4 : ℚ) * s⌉).toNat - 1 + 1 =
        Nat.clog 2 (⌈(4 : ℚ) * s⌉).toNat := by omega
    have hpow : (2 : ℚ) ^ Nat.clog 2 (⌈(4 : ℚ) * s⌉).toNat =
        (2 : ℚ) ^ (Nat.clog 2 (⌈(4 : ℚ) * s⌉).toNat - 1) * 2 := by
      rw [← pow_succ, hksucc]
    push_cast
    rw [hpow] at hq
    linarith
  have hm : (⌈(2 : ℚ) * s⌉).toNat ≤ 2 ^ (Nat.clog 2 (⌈(4 : ℚ) * s⌉).toNat - 1) := by
    have := Int.toNat_le_toNat h2s
    calc (⌈(2 : ℚ) * s⌉).toNat ≤ ((2 : ℤ) ^ (Nat.clog 2 (⌈(4 : ℚ) * s⌉).toNat - 1)).toNat :=
          this
      _ = 2 ^ (Nat.clog 2 (⌈(4 : ℚ) * s⌉).toNat - 1) := by
          rw [show ((2 : ℤ) ^ (Nat.clog 2 (⌈(4 : ℚ) * s⌉).toNat - 1)) =
              ((2 ^ (Nat.clog 2 (⌈(4 : ℚ) * s⌉).toNat - 1) : ℕ) : ℤ) by push_cast; ring]
          exact Int.toNat_natCast _
  have hfin : Nat.clog 2 (⌈(2 : ℚ) * s⌉).toNat ≤
      Nat.clog 2 (⌈(4 : ℚ) * s⌉).toNat - 1 :=
    (Nat.le_pow_iff_clog_le one_lt_two).mp hm
  omega

/-- Replacing the recursion parameter of `subdivide_children` changes
nothing unless a child actually recurses (child size at least the minimum
leaf size). -/
theorem subdivide_children_congr (g : DataGenerator α)
    (r₁ r₂ : V3 → ℚ → List Cube) (pos : V3) (size : ℚ)
    (h : ¬ size / 2 < SMALLEST_CUBE_SIZE → ∀ p, r₁ p (size / 2) = r₂ p (size / 2)) :
    subdivide_children g r₁ pos size = subdivide_children g r₂ pos size := by
  obtain ⟨px, py, pz⟩ := pos
  by_cases hh : size / 2 < SMALLEST_CUBE_SIZE
  · simp [subdivide_children, hh]
  · have hr := h hh
    simp only [subdivide_children, if_neg hh]
    congr 1
    funext i
    exact hr _

/-- Fuel stability of the subdivision: any fuel at least `depthBound size + 1`
computes the canonical `subdivide_cube`. -/
theorem subdivide_fuel_stable (g : DataGenerator α) :
    ∀ (fuel : ℕ) (pos : V3) (size : ℚ), depthBound size + 1 ≤ fuel →
      subdivide_cube_fuel g fuel pos size = subdivide_cube g pos size := by
  intro fuel
  induction fuel using Nat.strong_induction_on with
  | _ fuel ih =>
    intro pos size hfuel
    obtain ⟨f, rfl⟩ : ∃ f, fuel = f + 1 := ⟨fuel - 1, by omega⟩
    unfold subdivide_cube
    simp only [subdivide_cube_fuel]
    by_cases h8 : n_air_cubes g pos size = 8
    · simp [h8]
    · by_cases hth : ((n_air_cubes g pos size : ℤ)) ≤ max_air_cubes size
      · simp [h8, hth]
      · simp only [h8, hth, if_false, if_neg h8, if_neg hth]
        apply subdivide_children_congr
        intro hhalf p
        have hs : 1/2 ≤ size := by
          simp only [SMALLEST_CUBE_SIZE, not_lt] at hhalf
          linarith
        have hd := depthBound_half_lt size hs
        rw [ih f (by omega) p (size / 2) (by omega),
          ih (depthBound size) (by omega) p (size / 2) (by omega)]

/-- C5: for every occupancy field, cube centre and size, if all 8 corner
samples report air then `subdivide_cube` returns the empty list — no cell is
emitted and no recursion happens. -/
theorem subdivide_cube_prunes_all_air (g : DataGenerator α) (pos : V3)
    (size : ℚ) (h : n_air_cubes g pos size = 8) :
    subdivide_cube g pos size = [] := by
  unfold subdivide_cube
  simp only [subdivide_cube_fuel, h, if_pos]

unseal Rat.sub Rat.add Rat.mul Rat.inv in
/-- Witness for C5 at the all-air field, centre (0,0,0), size 4. -/
theorem subdivide_cube_prunes_all_air_witness :
    n_air_cubes all_air_gen (0, 0, 0) 4 = 8 ∧
      subdivide_cube all_air_gen (0, 0, 0) 4 = [] :=
  ⟨by decide, subdivide_cube_prunes_all_air all_air_gen (0, 0, 0) 4 (by decide)⟩

/-- C7: the subdivision recursion terminates for every positive input size —
running the fuel-indexed body with any fuel of at least `depthBound size + 1`
(one more than `⌈log₂(size / 0.25)⌉`, see `depthBound_eq_clog`) yields the
same result, i.e. the recursion depth never exceeds `⌈log₂(size / 0.25)⌉`;
each recursive call in `subdivide_cube_fuel` receives exactly half the size
and recursion stops unconditionally once the child size drops below
`SMALLEST_CUBE_SIZE` (both visible in `subdivide_children`). -/
theorem subdivide_cube_terminates (g : DataGenerator α) (pos : V3) (size : ℚ)
    (_hpos : 0 < size) (fuel : ℕ) (hfuel : depthBound size + 1 ≤ fuel) :
    subdivide_cube_fuel g fuel pos size = subdivide_cube g pos size :=
  subdivide_fuel_stable g fuel pos size hfuel

unseal Rat.mul in
/-- Witness for C7 at the all-air field, centre (0,0,0), size 4, fuel 10. -/
theorem subdivide_cube_terminates_witness :
    (0 : ℚ) < 4 ∧ depthBound 4 + 1 ≤ 10 ∧
      subdivide_cube_fuel all_air_gen 10 (0, 0, 0) 4 =
        subdivide_cube all_air_gen (0, 0, 0) 4 :=
  ⟨by decide, by decide,
    subdivide_cube_terminates all_air_gen (0, 0, 0) 4 (by decide) 10 (by decide)⟩

/-- On quarter-integer arguments the epsilon window degenerates to exact
equality. -/
theorem quarter_window (k : ℕ) (c : ℕ) :
    (|(k : ℚ) / 4 - (c : ℚ) / 4| < f32_epsilon) ↔ k = c := by
  rw [abs_sub_lt_iff]
  constructor
  · rintro ⟨ha, hb⟩
    unfold f32_epsilon at ha hb
    have h1 : (k : ℚ) < (c : ℚ) + 1 := by linarith
    have h2 : (c : ℚ) < (k : ℚ) + 1 := by linarith
    have h1n : k < c + 1 := by exact_mod_cast h1
    have h2n : c < k + 1 := by exact_mod_cast h2
    omega
  · rintro rfl
    norm_num [f32_epsilon]

/-- On quarter-integer sizes the epsilon window of `max_air_cubes` is exact:
the threshold is 4 at size 1/4, 2 at size 2/4, 1 at size 4/4 and 0 at every
other positive multiple of 1/4. -/
theorem max_air_cubes_quarter (k : ℕ) :
    max_air_cubes ((k : ℚ) / 4) =
      (if k = 1 then 4 else if k = 2 then 2 else if k = 4 then 1 else 0) := by
  have i1 : (|(k : ℚ) / 4 - 1/4| < f32_epsilon) ↔ k = 1 := by
    have h := quarter_window k 1
    norm_num at h
    exact h
  have i2 : (|(k : ℚ) / 4 - 1/2| < f32_epsilon) ↔ k = 2 := by
    have h := quarter_window k 2
    rw [show ((2 : ℕ) : ℚ) / 4 = 1/2 by norm_num] at h
    exact h
  have i3 : (|(k : ℚ) / 4 - 1| < f32_epsilon) ↔ k = 4 := by
    have h := quarter_window k 4
    rw [show ((4 : ℕ) : ℚ) / 4 = 1 by norm_num] at h
    exact h
  unfold max_air_cubes
  simp only [i1, i2, i3]

/-- C6: for sizes that are multiples of a quarter (all sizes the pipeline
ever subdivides), and a cube whose corners are not all air, the subdivision
emits exactly the single oversized cell without recursing precisely when the
air-corner count is at or under the size threshold — 4 at size 0.25, 2 at
size 0.5, 1 at size 1.0 and 0 at any other size, in particular any larger
one — and otherwise splits into the 8 half-size children. -/
theorem subdivide_cube_threshold (g : DataGenerator α) (pos : V3) (k : ℕ)
    (_hk : 1 ≤ k) (hne : n_air_cubes g pos ((k : ℚ) / 4) ≠ 8) :
    max_air_cubes ((k : ℚ) / 4) =
      (if k = 1 then 4 else if k = 2 then 2 else if k = 4 then 1 else 0) ∧
    (((n_air_cubes g pos ((k : ℚ) / 4) : ℤ)) ≤ max_air_cubes ((k : ℚ) / 4) →
      subdivide_cube g pos ((k : ℚ) / 4) =
        [render_cube g (g.get_data_2d pos.1 pos.2.2) pos ((k : ℚ) / 4)]) ∧
    (max_air_cubes ((k : ℚ) / 4) < ((n_air_cubes g pos ((k : ℚ) / 4) : ℤ)) →
      subdivide_cube g pos ((k : ℚ) / 4) =
        subdivide_children g (subdivide_cube g) pos ((k : ℚ) / 4)) := by
  refine ⟨max_air_cubes_quarter k, ?_, ?_⟩
  · intro hth
    unfold subdivide_cube
    simp only [subdivide_cube_fuel]
    rw [if_neg hne, if_pos hth]
  · intro hth
    unfold subdivide_cube
    simp only [subdivide_cube_fuel]
    rw [if_neg hne, if_neg (not_le.mpr hth)]
    apply subdivide_children_congr
    intro hhalf p
    have hs : 1/2 ≤ (k : ℚ) / 4 := by
      simp only [SMALLEST_CUBE_SIZE, not_lt] at hhalf
      linarith
    have hd := depthBound_half_lt ((k : ℚ) / 4) hs
    exact subdivide_fuel_stable g (depthBound ((k : ℚ) / 4)) p ((k : ℚ) / 4 / 2)
      (by omega)

unseal Rat.sub Rat.add Rat.mul Rat.inv in
/-- Witness for C6 at the all-solid field, centre (0,0,0), size 4 = 16/4:
zero air corners, threshold 0, single-cell branch taken. -/
theorem subdivide_cube_threshold_witness :
    (1 ≤ 16 ∧ n_air_cubes all_solid_gen (0, 0, 0) ((16 : ℕ) / 4 : ℚ) ≠ 8) ∧
      (max_air_cubes (((16 : ℕ) : ℚ) / 4) =
        (if (16 : ℕ) = 1 then 4 else if (16 : ℕ) = 2 then 2
          else if (16 : ℕ) = 4 then 1 else 0) ∧
      (((n_air_cubes all_solid_gen (0, 0, 0) (((16 : ℕ) : ℚ) / 4) : ℤ)) ≤
          max_air_cubes (((16 : ℕ) : ℚ) / 4) →
        subdivide_cube all_solid_gen (0, 0, 0) (((16 : ℕ) : ℚ) / 4) =
          [render_cube all_solid_gen (all_solid_gen.get_data_2d 0 0) (0, 0, 0)
            (((16 : ℕ) : ℚ) / 4)]) ∧
      (max_air_cubes (((16 : ℕ) : ℚ) / 4) < ((n_air_cubes all_solid_gen (0, 0, 0)
          (((16 : ℕ) : ℚ) / 4) : ℤ)) →
        subdivide_cube all_solid_gen (0, 0, 0) (((16 : ℕ) : ℚ) / 4) =
          subdivide_children all_solid_gen (subdivide_cube all_solid_gen)
            (0, 0, 0) (((16 : ℕ) : ℚ) / 4))) :=
  ⟨⟨by decide, by decide⟩,
    subdivide_cube_threshold all_solid_gen (0, 0, 0) 16 (by decide) (by decide)⟩

/-- Appending one face through `push_face` preserves mesh consistency: the
face contributes the next run of consecutive indices and one attribute entry
per index. -/
theorem push_face_ok (normal : V3) (md : MeshData) (face : Face)
    (h : MeshOk md) : MeshOk (push_face normal md face) := by
  obtain ⟨hi, hp, hn, hc⟩ := h
  unfold push_face MeshOk
  simp only [List.length_append, List.length_map, List.length_range]
  refine ⟨?_, by omega, by omega, by omega⟩
  rw [List.range_add]
  conv_lhs => rw [hi]
  simp [List.length_range]

/-- The inner per-direction fold of `generate_mesh_data` preserves mesh
consistency. -/
theorem foldl_push_face_ok (normal : V3) :
    ∀ (faces : List Face) (md : MeshData), MeshOk md →
      MeshOk (faces.foldl (push_face normal) md) := by
  intro faces
  induction faces with
  | nil => intro md h; exact h
  | cons f fs ih => intro md h; exact ih _ (push_face_ok normal md f h)

/-- The buffers built by `generate_mesh_data` are always consistent. -/
theorem generate_mesh_data_ok (cube_faces : List CubeFace) :
    MeshOk (generate_mesh_data cube_faces) := by
  unfold generate_mesh_data
  have base : MeshOk ⟨[], [], [], []⟩ := ⟨rfl, rfl, rfl, rfl⟩
  revert base
  generalize (⟨[], [], [], []⟩ : MeshData) = md
  revert md
  induction cube_faces with
  | nil => intro md h; exact h
  | cons cf cfs ih =>
    intro md h
    exact ih _ (foldl_push_face_ok cf.normal cf.faces md h)

/-- On a non-empty cube list `generate_cube_faces` reaches its fold (no
panic). -/
theorem generate_cube_faces_some (cubes : List Cube) (chunk_pos : V3)
    (h : cubes ≠ []) : ∃ v, generate_cube_faces cubes chunk_pos = some v := by
  match cubes, h with
  | c :: cs, _ => exact ⟨_, rfl⟩

/-- On a non-empty cube list `cubes_mesh` returns consistent buffers and the
triangle count `indices.length / 3`, for an arbitrary culling filter. -/
theorem cubes_mesh_some (filter : FaceFilter) (cubes : List Cube)
    (chunk_pos : V3) (h : cubes ≠ []) :
    ∃ md n, cubes_mesh filter cubes chunk_pos = some (md, n) ∧
      MeshOk md ∧ n = md.indices.length / 3 := by
  obtain ⟨v, hv⟩ := generate_cube_faces_some cubes chunk_pos h
  have heq : cubes_mesh filter cubes chunk_pos =
      some (generate_mesh_data (filter v.1 v.2.1 v.2.2),
        (generate_mesh_data (filter v.1 v.2.1 v.2.2)).indices.length / 3) := by
    unfold cubes_mesh
    rw [hv]
    rfl
  exact ⟨_, _, heq, generate_mesh_data_ok _, rfl⟩

/-- C8: for every non-empty cube list (and any culling filter standing for
the ray-cast step), `cubes_mesh` succeeds, its triangle count equals the
index-buffer length divided by 3, the position/normal/colour buffers all
have the same length as the index buffer, and every index is a valid
position-buffer index. -/
theorem cubes_mesh_consistent (filter : FaceFilter) (cubes : List Cube)
    (chunk_pos : V3) (h : cubes ≠ []) :
    ∃ md n, cubes_mesh filter cubes chunk_pos = some (md, n) ∧
      n = md.indices.length / 3 ∧
      md.positions.length = md.indices.length ∧
      md.normals.length = md.indices.length ∧
      md.colors.length = md.indices.length ∧
      ∀ i ∈ md.indices, i < md.positions.length := by
  obtain ⟨md, n, heq, ⟨hi, hp, hn, hc⟩, hn3⟩ := cubes_mesh_some filter cubes chunk_pos h
  refine ⟨md, n, heq, hn3, hp, hn, hc, ?_⟩
  intro i hmem
  rw [hi] at hmem
  rw [hp]
  exact List.mem_range.mp hmem

/-- Witness for C8 on a one-cube list with the identity filter. -/
theorem cubes_mesh_consistent_witness :
    ([(⟨(0, 0, 0), 1, (0, 0, 0)⟩ : Cube)] ≠ []) ∧
      (∃ md n, cubes_mesh idFilter [(⟨(0, 0, 0), 1, (0, 0, 0)⟩ : Cube)] (0, 0, 0) =
          some (md, n) ∧
        n = md.indices.length / 3 ∧
        md.positions.length = md.indices.length ∧
        md.normals.length = md.indices.length ∧
        md.colors.length = md.indices.length ∧
        ∀ i ∈ md.indices, i < md.positions.length) :=
  ⟨by simp,
    cubes_mesh_consistent idFilter [⟨(0, 0, 0), 1, (0, 0, 0)⟩] (0, 0, 0) (by simp)⟩

/-- C10: `generate_cube_faces` panics exactly on the empty cube list (it
reads `cubes[0]` unconditionally), and `chunk_render` — its only caller —
establishes the non-emptiness precondition by invoking the mesher only when
subdivision produced at least one cube, returning no mesh and zero triangles
otherwise; hence the first-element access is always safe in the pipeline. -/
theorem chunk_render_mesher_safe (filter : FaceFilter) (g : DataGenerator α) :
    (∀ chunk_pos : V3, generate_cube_faces [] chunk_pos = none) ∧
    (∀ (cubes : List Cube) (chunk_pos : V3), cubes ≠ [] →
      (generate_cube_faces cubes chunk_pos).isSome = true) ∧
    (∀ (chunk_pos : V3) (chunk_size : ℚ),
      (chunk_render filter g chunk_pos chunk_size).isSome = true ∧
      (subdivide_cube g chunk_pos chunk_size = [] →
        chunk_render filter g chunk_pos chunk_size =
          some { mesh := none, chunk_pos := chunk_pos, n_cubes := 0,
                 n_triangles := 0 })) := by
  refine ⟨fun _ => rfl, ?_, ?_⟩
  · intro cubes chunk_pos h
    obtain ⟨v, hv⟩ := generate_cube_faces_some cubes chunk_pos h
    rw [hv]
    rfl
  · intro chunk_pos chunk_size
    constructor
    · unfold chunk_render
      cases hc : subdivide_cube g chunk_pos chunk_size with
      | nil => rfl
      | cons c cs =>
        obtain ⟨md, n, heq, _, _⟩ :=
          cubes_mesh_some filter (c :: cs) chunk_pos (by simp)
        simp [heq]
    · intro hempty
      unfold chunk_render
      rw [hempty]
      rfl

unseal Rat.sub Rat.add Rat.mul Rat.inv in
/-- Witness for C10 with the identity filter and the all-air field (whose
subdivision at the origin chunk is empty). -/
theorem chunk_render_mesher_safe_witness :
    (generate_cube_faces [] (0, 0, 0) = none) ∧
    (([(⟨(0, 0, 0), 1, (0, 0, 0)⟩ : Cube)] ≠ []) ∧
      (generate_cube_faces [(⟨(0, 0, 0), 1, (0, 0, 0)⟩ : Cube)]
        (0, 0, 0)).isSome = true) ∧
    ((chunk_render idFilter all_air_gen (0, 0, 0) 4).isSome = true ∧
      (subdivide_cube all_air_gen (0, 0, 0) 4 = [] ∧
        chunk_render idFilter all_air_gen (0, 0, 0) 4 =
          some { mesh := none, chunk_pos := (0, 0, 0), n_cubes := 0,
                 n_triangles := 0 })) :=
  ⟨(chunk_render_mesher_safe idFilter all_air_gen).1 (0, 0, 0),
    ⟨by simp,
      (chunk_render_mesher_safe idFilter all_air_gen).2.1 _ (0, 0, 0) (by simp)⟩,
    ((chunk_render_mesher_safe idFilter all_air_gen).2.2 (0, 0, 0) 4).1,
    by decide,
    ((chunk_render_mesher_safe idFilter all_air_gen).2.2 (0, 0, 0) 4).2 (by decide)⟩

/-- World positions of distinct chunk coordinates are distinct. -/
theorem chunk_world_pos_inj {a b : Coord}
    (h : chunk_world_pos a = chunk_world_pos b) : a = b := by
  obtain ⟨a1, a2, a3⟩ := a
  obtain ⟨b1, b2, b3⟩ := b
  simp only [chunk_world_pos, Prod.mk.injEq] at h
  obtain ⟨h1, h2, h3⟩ := h
  have e1 : CHUNK_SIZE * a1 = CHUNK_SIZE * b1 := by exact_mod_cast h1
  have e2 : CHUNK_SIZE * a3 = CHUNK_SIZE * b3 := by exact_mod_cast h2
  have e3 : CHUNK_SIZE * a2 = CHUNK_SIZE * b2 := by exact_mod_cast h3
  unfold CHUNK_SIZE at e1 e2 e3
  simp only [Prod.mk.injEq]
  omega

/-- Normalised grid indices of distinct chunk coordinates are distinct. -/
theorem normalised_inj {a b : Coord} (h : normalised a = normalised b) :
    a = b := by
  obtain ⟨a1, a2, a3⟩ := a
  obtain ⟨b1, b2, b3⟩ := b
  simp only [normalised, Prod.mk.injEq] at h
  simp only [Prod.mk.injEq]
  omega

/-- A successful `chunk_render` records its position argument and the
subdivision's cube count. -/
theorem chunk_render_spec (filter : FaceFilter) (g : DataGenerator α)
    (p : V3) (s : ℚ) (ch : Chunk) (h : chunk_render filter g p s = some ch) :
    ch.chunk_pos = p ∧ ch.n_cubes = (subdivide_cube g p s).length := by
  unfold chunk_render at h
  dsimp only at h
  split at h
  · simp only [Option.some.injEq] at h
    subst h
    exact ⟨rfl, rfl⟩
  · cases hm : cubes_mesh filter (subdivide_cube g p s) p with
    | none => rw [hm] at h; simp at h
    | some mt =>
      rw [hm] at h
      simp only [Option.map_some', Option.some.injEq] at h
      subst h
      exact ⟨rfl, rfl⟩

/-- One step of the per-direction loop preserves the explore invariant. -/
theorem explore_dir_inv (visited : Visited) (g : DataGenerator α)
    (filter : FaceFilter) (chunk : Coord) (st : ExploreResult) (d : Coord)
    (r : ExploreResult) (hst : ExploreInv visited st)
    (h : explore_dir visited g filter chunk st d = some r) :
    ExploreInv visited r := by
  unfold explore_dir at h
  dsimp only at h
  set n : Coord := (chunk.1 + d.1, chunk.2.1 + d.2.1, chunk.2.2 + d.2.2)
    with hn
  split at h
  next => simp only [Option.some.injEq] at h; subst h; exact hst
  next =>
  split at h
  next => simp only [Option.some.injEq] at h; subst h; exact hst
  next hvis =>
  split at h
  next => simp only [Option.some.injEq] at h; subst h; exact hst
  next =>
  split at h
  next => simp at h
  next c hc =>
  simp only [Option.some.injEq] at h
  subst h
  simp only [Bool.or_eq_true, not_or, Bool.not_eq_true] at hvis
  obtain ⟨hvis1, hvis2⟩ := hvis
  obtain ⟨hcp, _hcn⟩ := chunk_render_spec filter g _ _ c hc
  obtain ⟨hq, hcks, hpw⟩ := hst
  have hpreserve : ∀ p : Coord, st.new_visited p = true →
      (if p = normalised n then true else st.new_visited p) = true := by
    intro p hp
    split
    · rfl
    · exact hp
  have hnotin : n ∉ st.new_queue := by
    intro hin
    have := hq n hin
    rw [hvis2] at this
    simp at this
  refine ⟨?_, ?_, ?_⟩
  · intro q hqmem
    dsimp only at hqmem ⊢
    by_cases hb : c.n_cubes = 1
    · rw [if_pos (by simp [hb])] at hqmem
      exact hpreserve _ (hq q hqmem)
    · rw [if_neg (by simp [hb])] at hqmem
      rcases List.mem_append.mp hqmem with hmem | hmem
      · exact hpreserve _ (hq q hmem)
      · simp only [List.mem_singleton] at hmem
        subst hmem
        simp
  · intro ch hmem
    dsimp only at hmem ⊢
    have hold : ch ∈ st.chunks →
        ∃ m : Coord, ch.chunk_pos = chunk_world_pos m ∧
          (if normalised m = normalised n then true
            else st.new_visited (normalised m)) = true ∧
          visited (normalised m) = false ∧
          (m ∈ (if (decide (c.n_cubes = 1)) = true then st.new_queue
            else st.new_queue ++ [n]) ↔ ch.n_cubes ≠ 1) := by
      intro hmemo
      obtain ⟨m, hmp, hmv, hmvis, hmiff⟩ := hcks ch hmemo
      have hmne : m ≠ n := by
        intro e
        rw [e, hvis2] at hmv
        simp at hmv
      refine ⟨m, hmp, hpreserve _ hmv, hmvis, ?_⟩
      by_cases hb : c.n_cubes = 1
      · rw [if_pos (by simp [hb])]
        exact hmiff
      · rw [if_neg (by simp [hb])]
        rw [List.mem_append, List.mem_singleton]
        constructor
        · rintro (hin | hin)
          · exact hmiff.mp hin
          · exact absurd hin hmne
        · intro hne
          exact Or.inl (hmiff.mpr hne)
    split at hmem
    · rcases List.mem_append.mp hmem with hmemo | hmemc
      · exact hold hmemo
      · simp only [List.mem_singleton] at hmemc
        subst hmemc
        refine ⟨n, hcp, by simp, hvis1, ?_⟩
        dsimp only
        by_cases hb : ch.n_cubes = 1
        · rw [if_pos (by simp [hb])]
          constructor
          · intro hin
            exact absurd hin hnotin
          · intro hne
            exact absurd hb hne
        · rw [if_neg (by simp [hb])]
          constructor
          · intro _
            exact hb
          · intro _
            exact List.mem_append.mpr (Or.inr (by simp))
    · exact hold hmem
  · dsimp only
    split
    next hpos0 =>
      rw [List.map_append, List.pairwise_append]
      refine ⟨hpw, by simp, ?_⟩
      intro p hp q hqmem
      simp only [List.map_cons, List.map_nil, List.mem_singleton] at hqmem
      subst hqmem
      obtain ⟨ch0, hch0, rfl⟩ := List.mem_map.mp hp
      obtain ⟨m, hmp, hmv, _, _⟩ := hcks ch0 hch0
      rw [hmp, hcp]
      intro e
      have hmn := chunk_world_pos_inj e
      subst hmn
      rw [hvis2] at hmv
      simp at hmv
    next => exact hpw

/-- The per-direction fold preserves the explore invariant along any
direction list. -/
theorem foldlM_explore_inv (visited : Visited) (g : DataGenerator α)
    (filter : FaceFilter) (chunk : Coord) :
    ∀ (ds : List Coord) (st : ExploreResult) (r : ExploreResult),
      ExploreInv visited st →
      List.foldlM (explore_dir visited g filter chunk) st ds = some r →
      ExploreInv visited r := by
  intro ds
  induction ds with
  | nil =>
    intro st r hst h
    simp only [List.foldlM_nil] at h
    cases h
    exact hst
  | cons d ds ih =>
    intro st r hst h
    simp only [List.foldlM_cons] at h
    cases hstep : explore_dir visited g filter chunk st d with
    | none => rw [hstep] at h; simp at h
    | some st2 =>
      rw [hstep] at h
      have hx : List.foldlM (explore_dir visited g filter chunk) st2 ds = some r := h
      exact ih st2 r (explore_dir_inv visited g filter chunk st d st2 hst hstep) hx

/-- A successful `explore_chunk` satisfies the explore invariant. -/
theorem explore_chunk_inv (visited : Visited) (g : DataGenerator α)
    (filter : FaceFilter) (chunk : Coord) (r : ExploreResult)
    (h : explore_chunk visited g filter chunk = some r) :
    ExploreInv visited r := by
  unfold explore_chunk at h
  exact foldlM_explore_inv visited g filter chunk directions _ r
    ⟨by simp, by simp, by simp⟩ h

unseal Rat.sub Rat.add Rat.mul Rat.inv in
/-- Counterexample for C1: under the field `cex_gen`, exploring from the
origin generates the chunk at world position (4, 0, 0) (coordinate
(1, 0, 0)) with exactly one cube, and excludes that coordinate from the new
frontier — i.e. classifies it as blocking — although its top-level
corner-sampling pass found 7 air corners, not 0.  The other five in-range
neighbours (all air, zero cubes) are enqueued.  So the blocking predicate is
not `n_air_cells == 0` at the coarsest granularity. -/
theorem explore_chunk_blocking_cex :
    ((explore_chunk (fun _ => false) cex_gen idFilter (0, 0, 0)).map
      (fun r => (r.chunks.map fun c => (c.chunk_pos, c.n_cubes), r.new_queue))) =
      some ([((4, 0, 0), 1)],
        [(-1, 0, 0), (0, -1, 0), (0, 1, 0), (0, 0, -1), (0, 0, 1)]) ∧
    n_air_cubes cex_gen (chunk_world_pos (1, 0, 0)) (CHUNK_SIZE : ℚ) = 7 :=
  ⟨by decide, by decide⟩

/-- C1 (amended): for every occupancy field, visited grid and chunk, each
chunk generated by `explore_chunk` sits at the world position of some
neighbour coordinate, and that coordinate is withheld from the new frontier
(classified blocking) exactly when the chunk's generated cube count equals
1 — the blocking predicate is `n_cubes == 1`, a condition on the number of
generated cells. -/
theorem explore_chunk_blocking_iff (g : DataGenerator α) (filter : FaceFilter)
    (visited : Visited) (chunk : Coord) (pr : V3 × ℕ)
    (hpr : pr ∈ ((explore_chunk visited g filter chunk).elim []
        ExploreResult.chunks).map (fun c => (c.chunk_pos, c.n_cubes))) :
    ∃ n : Coord, pr.1 = chunk_world_pos n ∧
      (n ∉ (explore_chunk visited g filter chunk).elim []
          ExploreResult.new_queue ↔ pr.2 = 1) := by
  cases hres : explore_chunk visited g filter chunk with
  | none => rw [hres] at hpr; simp at hpr
  | some r =>
    rw [hres] at hpr
    simp only [Option.elim_some] at hpr ⊢
    obtain ⟨c, hc, rfl⟩ := List.mem_map.mp hpr
    obtain ⟨_, hcks, _⟩ := explore_chunk_inv visited g filter chunk r hres
    obtain ⟨m, hmp, _, _, hmiff⟩ := hcks c hc
    exact ⟨m, hmp, (not_iff_not.mpr hmiff).trans not_ne_iff⟩

unseal Rat.sub Rat.add Rat.mul Rat.inv in
/-- Witness for the amended C1 on the `cex_gen` run: the generated chunk at
(4, 0, 0) with one cube is withheld from the frontier. -/
theorem explore_chunk_blocking_iff_witness :
    (((4 : ℚ), (0 : ℚ), (0 : ℚ)), 1) ∈
      ((explore_chunk (fun _ => false) cex_gen idFilter (0, 0, 0)).elim []
        ExploreResult.chunks).map (fun c => (c.chunk_pos, c.n_cubes)) ∧
    ∃ n : Coord, (((4 : ℚ), (0 : ℚ), (0 : ℚ)), 1).1 = chunk_world_pos n ∧
      (n ∉ (explore_chunk (fun _ => false) cex_gen idFilter (0, 0, 0)).elim []
          ExploreResult.new_queue ↔ (((4 : ℚ), (0 : ℚ), (0 : ℚ)), 1).2 = 1) :=
  ⟨by decide,
    explore_chunk_blocking_iff cex_gen idFilter (fun _ => false) (0, 0, 0)
      (((4 : ℚ), (0 : ℚ), (0 : ℚ)), 1) (by decide)⟩

unseal Rat.sub Rat.add Rat.mul Rat.inv in
/-- Counterexample for C2: with `get_data_3d` forced to report solid
everywhere, `chunk_search` terminates (empty frontier) with a total of 6
generated chunks, not 1. -/
theorem chunk_search_all_solid_cex :
    ((chunk_search all_solid_gen idFilter 10).map fun st =>
      (st.queue.isEmpty, st.chunks.length)) = some (true, 6) := by
  decide

unseal Rat.sub Rat.add Rat.mul Rat.inv in
/-- C2 (amended): with the all-solid field, exploration from the origin
terminates after one pass; the origin chunk itself is never generated (the
explorer only generates neighbour coordinates); its six axis neighbours are
each generated with exactly one cube — hence classified blocking under the
code's `n_cubes == 1` predicate, stopping all further expansion — and the
total chunk count is 6.  No chunk sits at the origin's world position
(0, 0, 0). -/
theorem chunk_search_all_solid :
    ((chunk_search all_solid_gen idFilter 10).map fun st =>
      (st.queue, st.chunks.map fun c => (c.chunk_pos, c.n_cubes))) =
      some ([], [((-4, 0, 0), 1), ((4, 0, 0), 1), ((0, 0, -4), 1),
                 ((0, 0, 4), 1), ((0, -4, 0), 1), ((0, 4, 0), 1)]) := by
  decide

/-- Counterexample for C3: in the explorer's state before the loop starts,
the origin (0, 0, 0) is present in the frontier queue but its slot in the
visited grid (normalised index (3, 3, 3)) is false — the origin is NOT
marked visited. -/
theorem initState_origin_not_visited_cex :
    initState.visited (normalised (0, 0, 0)) = false ∧
      (0, 0, 0) ∈ initState.queue :=
  ⟨rfl, by decide⟩

/-- C3 (amended): before the exploration loop starts the frontier queue
holds exactly the origin chunk coordinate, and the visited grid is entirely
false — no coordinate, the origin included, is marked visited. -/
theorem initState_spec :
    initState.queue = [(0, 0, 0)] ∧ ∀ p : Coord, initState.visited p = false :=
  ⟨rfl, fun _ => rfl⟩

/-- One iteration of the search loop preserves the search invariant. -/
theorem search_step_inv (g : DataGenerator α) (filter : FaceFilter)
    (st : SearchState) (c : Coord) (rest : List Coord) (r : ExploreResult)
    (hst : SearchInv st)
    (hr : explore_chunk st.visited g filter c = some r) :
    SearchInv { chunks := st.chunks ++ r.chunks,
                visited := merge_visited st.visited r.new_visited,
                queue := rest ++ r.new_queue } := by
  obtain ⟨hin, hpw⟩ := hst
  obtain ⟨_, hcks, hpwr⟩ := explore_chunk_inv st.visited g filter c r hr
  have hmerge_old : ∀ p : Coord, st.visited p = true →
      merge_visited st.visited r.new_visited p = true := by
    intro p hp
    unfold merge_visited
    rw [hp]
    simp
  have hmerge_new : ∀ p : Coord, r.new_visited p = true →
      merge_visited st.visited r.new_visited p = true := by
    intro p hp
    unfold merge_visited
    rw [hp]
    simp
  constructor
  · intro ch hmem
    dsimp only at hmem ⊢
    rcases List.mem_append.mp hmem with hmem | hmem
    · obtain ⟨n, hp, hv⟩ := hin ch hmem
      exact ⟨n, hp, hmerge_old _ hv⟩
    · obtain ⟨n, hp, hv, _, _⟩ := hcks ch hmem
      exact ⟨n, hp, hmerge_new _ hv⟩
  · dsimp only
    rw [List.map_append, List.pairwise_append]
    refine ⟨hpw, hpwr, ?_⟩
    intro p hp q hq
    obtain ⟨ch1, hch1, rfl⟩ := List.mem_map.mp hp
    obtain ⟨ch2, hch2, rfl⟩ := List.mem_map.mp hq
    obtain ⟨n1, hp1, hv1⟩ := hin ch1 hch1
    obtain ⟨n2, hp2, hv2, hvis2, _⟩ := hcks ch2 hch2
    rw [hp1, hp2]
    intro e
    have := chunk_world_pos_inj e
    subst this
    rw [hv1] at hvis2
    simp at hvis2

/-- The search loop preserves the search invariant for any fuel. -/
theorem search_loop_inv (g : DataGenerator α) (filter : FaceFilter) :
    ∀ (fuel : ℕ) (st out : SearchState), SearchInv st →
      search_loop g filter fuel st = some out → SearchInv out := by
  intro fuel
  induction fuel with
  | zero =>
    intro st out hst h
    unfold search_loop at h
    split at h
    · cases h; exact hst
    · simp at h
  | succ f ih =>
    intro st out hst h
    unfold search_loop at h
    split at h
    next hq => cases h; exact hst
    next chunk rest hq =>
      cases hr : explore_chunk st.visited g filter chunk with
      | none => rw [hr] at h; simp at h
      | some r =>
        rw [hr] at h
        exact ih _ out (search_step_inv g filter st chunk rest r hst hr) h

/-- C4: for every occupancy field (and culling filter) and any fuel, the
chunk list accumulated by the `chunk_search` exploration loop contains at
most one chunk per chunk coordinate: the recorded chunk positions are
pairwise distinct. -/
theorem chunk_search_no_duplicates (g : DataGenerator α)
    (filter : FaceFilter) (fuel : ℕ) :
    (((chunk_search g filter fuel).elim [] SearchState.chunks).map
      Chunk.chunk_pos).Pairwise (· ≠ ·) := by
  cases hres : chunk_search g filter fuel with
  | none => simp
  | some st =>
    simp only [Option.elim_some]
    have hinit : SearchInv initState := ⟨by simp [initState], by simp [initState]⟩
    exact (search_loop_inv g filter fuel initState st hinit hres).2
